import Mathlib

/-!
Shallow embedding of the Helix SDK encrypted-upload core
(src encryption module and client module) for checking the
natural-language specification against the code.

Modelling conventions:
- byte buffers (JS ArrayBuffer / Uint8Array) are `List Nat`, each element < 256;
- the platform AES-256-GCM primitive (crypto subtle encrypt / decrypt) is an
  abstract parameter `GCM` producing a ciphertext of the plaintext's length plus
  a 16-byte authentication tag, and a decryption returning `none` on tag
  mismatch (the Web Crypto OperationError); its standard contract is taken as a
  hypothesis where a claim needs it;
- the random values drawn inside a call (the fresh IV, the generated key, the
  ambient entropy stream) are passed as explicit arguments;
- a thrown JS Error is an `Except HelixError` value, with the error kinds named
  as in the specification's taxonomy: the source's
  "Invalid encrypted data: too short" is `InvalidEnvelope`,
  "Invalid key length: expected 32 bytes" is `InvalidKeyLength`,
  "Not authenticated" is `NotAuthenticated`, and the platform tag-mismatch
  rejection is `AuthenticationFailure`.
-/

namespace Helix

/-- A byte buffer: each element is a byte value < 256. -/
abbrev Bytes := List Nat

/-- Error kinds thrown by the core, named as in the specification taxonomy. -/
inductive HelixError where
  | InvalidEnvelope
  | AuthenticationFailure
  | InvalidKeyLength
  | NotAuthenticated
deriving DecidableEq, Repr

instance {ε α : Type} [DecidableEq ε] [DecidableEq α] : DecidableEq (Except ε α) := fun a b =>
  match a, b with
  | .ok x, .ok y =>
    if h : x = y then isTrue (by rw [h]) else isFalse (fun hh => h (Except.ok.inj hh))
  | .error x, .error y =>
    if h : x = y then isTrue (by rw [h]) else isFalse (fun hh => h (Except.error.inj hh))
  | .ok _, .error _ => isFalse (fun hh => Except.noConfusion hh)
  | .error _, .ok _ => isFalse (fun hh => Except.noConfusion hh)

/-- Abstract AES-GCM primitive (platform crypto, outside the repository).
`encCt key iv pt` is the ciphertext body, `encTag key iv pt` the 128-bit
authentication tag; crypto subtle encrypt returns their concatenation.
`dec key iv data` authenticates `data = ct ++ tag` and returns the plaintext,
or `none` on tag mismatch. -/
structure GCM where
  encCt : Bytes → Bytes → Bytes → Bytes
  encTag : Bytes → Bytes → Bytes → Bytes
  dec : Bytes → Bytes → Bytes → Option Bytes

/-- Combined output of the platform encrypt call: ciphertext followed by tag. -/
def GCM.enc (A : GCM) (key iv pt : Bytes) : Bytes :=
  A.encCt key iv pt ++ A.encTag key iv pt

/-- IV length in bytes (96 bits) — the source constant IV_LENGTH. -/
def IV_LENGTH : Nat := 12

/-- EncryptedData: combined IV + ciphertext + auth tag, plus the IV used. -/
structure EncryptedData where
  data : Bytes
  iv : Bytes
deriving DecidableEq, Repr

namespace HelixEncryption

/-- `HelixEncryption.encrypt`: prepends the fresh 12-byte IV (drawn from the
secure random source; here an explicit argument) to the platform AES-GCM
output over the data. -/
def encrypt (A : GCM) (data : Bytes) (key : Bytes) (iv : Bytes) : EncryptedData :=
  { data := iv ++ A.enc key iv data, iv := iv }

/-- `HelixEncryption.decrypt`: rejects inputs shorter than IV_LENGTH + 16 = 28
bytes, splits the first 12 bytes as IV and the rest as ciphertext + tag, and
runs the platform AES-GCM decryption, whose rejection is AuthenticationFailure. -/
def decrypt (A : GCM) (encryptedData : Bytes) (key : Bytes) : Except HelixError Bytes :=
  if encryptedData.length < IV_LENGTH + 16 then
    .error .InvalidEnvelope
  else
    let iv := encryptedData.take IV_LENGTH
    let ciphertext := encryptedData.drop IV_LENGTH
    match A.dec key iv ciphertext with
    | some pt => .ok pt
    | none => .error .AuthenticationFailure

/-- Standard base64 alphabet: sextet value to character. -/
def b64EncChar (n : Nat) : Char :=
  if n < 26 then Char.ofNat (65 + n)
  else if n < 52 then Char.ofNat (97 + (n - 26))
  else if n < 62 then Char.ofNat (48 + (n - 52))
  else if n = 62 then '+'
  else '/'

/-- Standard base64 alphabet: character to sextet value; characters outside the
alphabet (including padding) yield `none` and are skipped, matching the lenient
Node Buffer decoder on well-formed input. -/
def b64DecChar (c : Char) : Option Nat :=
  let n := c.toNat
  if 65 ≤ n ∧ n ≤ 90 then some (n - 65)
  else if 97 ≤ n ∧ n ≤ 122 then some (n - 97 + 26)
  else if 48 ≤ n ∧ n ≤ 57 then some (n - 48 + 52)
  else if c = '+' then some 62
  else if c = '/' then some 63
  else none

/-- base64 encoding of a byte list, with padding. -/
def b64EncodeBytes : Bytes → List Char
  | [] => []
  | [a] => [b64EncChar (a / 4), b64EncChar (a % 4 * 16), '=', '=']
  | [a, b] => [b64EncChar (a / 4), b64EncChar (a % 4 * 16 + b / 16),
               b64EncChar (b % 16 * 4), '=']
  | a :: b :: c :: rest =>
      b64EncChar (a / 4) :: b64EncChar (a % 4 * 16 + b / 16) ::
      b64EncChar (b % 16 * 4 + c / 64) :: b64EncChar (c % 64) ::
      b64EncodeBytes rest

/-- Reassemble bytes from a list of sextet values. -/
def b64DecodeSextets : List Nat → Bytes
  | p0 :: p1 :: p2 :: p3 :: rest =>
      (p0 * 4 + p1 / 16) :: (p1 % 16 * 16 + p2 / 4) :: (p2 % 4 * 64 + p3) ::
      b64DecodeSextets rest
  | [p0, p1, p2] => [p0 * 4 + p1 / 16, p1 % 16 * 16 + p2 / 4]
  | [p0, p1] => [p0 * 4 + p1 / 16]
  | _ => []

/-- Buffer toString base64. -/
def b64encode (l : Bytes) : String :=
  String.mk (b64EncodeBytes l)

/-- Buffer from base64: decode, skipping non-alphabet characters. -/
def b64decode (s : String) : Bytes :=
  b64DecodeSextets (s.toList.filterMap b64DecChar)

/-- `HelixEncryption.exportKey`: export raw key bytes as base64
(crypto subtle exportKey raw is the identity on the 32 key bytes). -/
def exportKey (raw : Bytes) : String :=
  b64encode raw

/-- `HelixEncryption.importKey`: decode base64, reject when the decoded length
is not 32 bytes, otherwise import the raw bytes as key material
(crypto subtle importKey raw is the identity on key material). -/
def importKey (keyString : String) : Except HelixError Bytes :=
  let raw := b64decode keyString
  if raw.length ≠ 32 then .error .InvalidKeyLength
  else .ok raw

/-- Abstract PBKDF2 provider (platform crypto):
password, salt, iteration count, output bit length to derived key material. -/
def PBKDF2Provider := String → Bytes → Nat → Nat → Bytes

/-- `HelixEncryption.deriveKey`: PBKDF2 over the password and salt with
100000 iterations (hash SHA-256, folded into the provider) deriving a 256-bit
AES-GCM key. The body draws no randomness: the result depends only on the
password and the salt. -/
def deriveKey (P : PBKDF2Provider) (password : String) (salt : Bytes) : Bytes :=
  P password salt 100000 256

/-- `HelixEncryption.generateSalt`: 16 bytes from the secure random source
(the entropy stream is the explicit argument). -/
def generateSalt (entropy : Nat → Nat) : Bytes :=
  (List.range 16).map (fun i => entropy i % 256)

end HelixEncryption

/-- The standalone module-level `importKey` function: decodes base64 and hands
the decoded bytes directly to the platform key import (the abstract argument
`imp`), with no length validation of its own. -/
def importKeyStandalone (imp : Bytes → Except HelixError Bytes) (keyString : String) :
    Except HelixError Bytes :=
  imp (HelixEncryption.b64decode keyString)

/-! ### Auth token expiry (HelixAuth static utilities) -/

namespace HelixAuth

/-- Decoded JWT payload claims, as in parseToken's return type. -/
structure TokenClaims where
  wallet : String
  exp : Nat
  iat : Nat
deriving DecidableEq, Repr

/-- base64url alphabet: character to sextet value (minus and underscore in
place of plus and slash). -/
def b64urlDecChar (c : Char) : Option Nat :=
  let n := c.toNat
  if 65 ≤ n ∧ n ≤ 90 then some (n - 65)
  else if 97 ≤ n ∧ n ≤ 122 then some (n - 97 + 26)
  else if 48 ≤ n ∧ n ≤ 57 then some (n - 48 + 52)
  else if c = '-' then some 62
  else if c = '_' then some 63
  else none

/-- Buffer from base64url. -/
def b64urlDecode (s : String) : Bytes :=
  HelixEncryption.b64DecodeSextets (s.toList.filterMap b64urlDecChar)

/-- Buffer toString utf-8, restricted to the ASCII range a JWT JSON payload of
interest uses (on bytes < 128 this agrees with UTF-8 decoding). -/
def bytesToString (l : Bytes) : String :=
  String.mk (l.map Char.ofNat)

/-- Split a character list on the dot character, as the JS string split with a
dot separator does. -/
def splitDots : List Char → List Char → List String
  | [], acc => [String.mk acc.reverse]
  | c :: rest, acc =>
    if c = '.' then String.mk acc.reverse :: splitDots rest []
    else splitDots rest (c :: acc)

/-- `HelixAuth.parseToken`: split the token on dots, require three parts,
base64url-decode the middle part and parse it as JSON. The platform JSON parse
is the abstract argument `jsonParse` (returning `none` where JSON.parse would
throw or the claims are absent). -/
def parseToken (jsonParse : String → Option TokenClaims) (token : String) :
    Except String TokenClaims :=
  let parts := splitDots token.toList []
  if parts.length ≠ 3 then .error "Invalid token format"
  else
    let payload := bytesToString (b64urlDecode (parts.getD 1 ""))
    match jsonParse payload with
    | some claims => .ok claims
    | none => .error "Invalid token payload"

/-- `HelixAuth.isTokenExpired`: true when parsing fails or the current time in
milliseconds has reached exp * 1000. -/
def isTokenExpired (jsonParse : String → Option TokenClaims) (token : String)
    (now : Nat) : Bool :=
  match parseToken jsonParse token with
  | .ok claims => decide (now ≥ claims.exp * 1000)
  | .error _ => true

end HelixAuth

/-! ### Client upload pipeline (HelixClient) -/

namespace HelixClient

/-- The client state the upload path consults: the stored bearer token, a
string or null in the source. The client stores only the token string; no
expiry is kept. -/
structure ClientState where
  authToken : Option String
deriving DecidableEq, Repr

/-- `HelixClient.isAuthenticated`: true iff authToken is not null. -/
def isAuthenticated (st : ClientState) : Bool :=
  st.authToken.isSome

/-- Options argument of uploadFile; `encrypt` is `none` when the caller leaves
the optional field undefined. -/
structure UploadOptions where
  name : String
  mimeType : String
  encrypt : Option Bool
deriving DecidableEq, Repr

/-- Record passed to the registry create call (CreateFileParams). -/
structure CreateFileParams where
  transactionId : String
  encryptedName : Option String
  mimeType : String
  size : Nat
  isEncrypted : Bool
deriving DecidableEq, Repr

/-- Result of uploadFile. -/
structure UploadResult where
  transactionId : String
  encryptionKey : Option String
  arweaveUrl : String
deriving DecidableEq, Repr

/-- Observable calls uploadFile makes to its collaborators, in order: the
transport store (uploadToArweave) and the registry create (files.create). -/
inductive UploadEvent where
  | transportStore (payload : Bytes) (mimeType : String)
  | registryCreate (record : CreateFileParams)
deriving DecidableEq, Repr

/-- The values the call's effectful collaborators produce: the raw bytes of the
generated key, the fresh IVs drawn by the two encrypt calls, and the
transaction id returned by the transport. -/
structure UploadEnv where
  freshKey : Bytes
  ivFile : Bytes
  ivName : Bytes
  txId : String
deriving DecidableEq, Repr

/-- TextEncoder encode: UTF-8 bytes of a string. -/
def textEncode (s : String) : Bytes :=
  s.toUTF8.toList.map (fun b => b.toNat)

/-- `HelixClient.uploadFile`, with its collaborator calls recorded as a trace.

Translated control flow: throw NotAuthenticated when isAuthenticated is false;
when options.encrypt is not explicitly false, generate a key, encrypt the file
and export the key; store the payload on the transport; when a key was
exported, re-import it and encrypt the UTF-8 name bytes under it, base64ing
the envelope; create the registry record with isEncrypted set to the same
condition; return the transaction id, the exported key (if any) and the
arweave URL. A failure propagates with the trace accumulated so far. -/
def uploadFile (A : GCM) (env : UploadEnv) (st : ClientState) (file : Bytes)
    (options : UploadOptions) : Except HelixError UploadResult × List UploadEvent :=
  if ¬ isAuthenticated st then
    (.error .NotAuthenticated, [])
  else
    let doEncrypt : Bool := options.encrypt != some false
    let dataToUpload :=
      if doEncrypt then (HelixEncryption.encrypt A file env.freshKey env.ivFile).data
      else file
    let encryptionKey : Option String :=
      if doEncrypt then some (HelixEncryption.exportKey env.freshKey) else none
    let storeEvent := UploadEvent.transportStore dataToUpload options.mimeType
    let transactionId := env.txId
    match encryptionKey with
    | some keyString =>
      match HelixEncryption.importKey keyString with
      | .error e => (.error e, [storeEvent])
      | .ok nameKey =>
        let encryptedName := HelixEncryption.b64encode
          (HelixEncryption.encrypt A (textEncode options.name) nameKey env.ivName).data
        let record : CreateFileParams :=
          { transactionId := transactionId
            encryptedName := some encryptedName
            mimeType := options.mimeType
            size := file.length
            isEncrypted := doEncrypt }
        (.ok { transactionId := transactionId
               encryptionKey := encryptionKey
               arweaveUrl := "https://arweave.net/" ++ transactionId },
         [storeEvent, UploadEvent.registryCreate record])
    | none =>
        let record : CreateFileParams :=
          { transactionId := transactionId
            encryptedName := none
            mimeType := options.mimeType
            size := file.length
            isEncrypted := doEncrypt }
        (.ok { transactionId := transactionId
               encryptionKey := encryptionKey
               arweaveUrl := "https://arweave.net/" ++ transactionId },
         [storeEvent, UploadEvent.registryCreate record])

end HelixClient

/-! ### A concrete executable cipher instance

Used only to evaluate the theorems at concrete inputs: a stand-in AEAD with
the same shape as the platform primitive (ciphertext of the plaintext's
length, 16-byte tag, decryption recomputing and checking the tag). It is not
AES-GCM; the theorems take the primitive's contract as hypotheses and the
instance discharges them at the chosen concrete inputs. -/

/-- Shift bytes by a key-and-IV-dependent constant; tag is 16 copies of a
checksum of the plaintext, key and IV. -/
def toyGCM : GCM where
  encCt := fun key iv pt => pt.map (fun x => (x + key.headD 0 + iv.headD 0) % 256)
  encTag := fun key iv pt =>
    List.replicate 16 ((pt.foldl (· + ·) 0 + key.headD 0 + iv.headD 0) % 256)
  dec := fun key iv d =>
    if d.length < 16 then none
    else
      let ct := d.take (d.length - 16)
      let tag := d.drop (d.length - 16)
      let pt := ct.map (fun x => (x + 256 - (key.headD 0 + iv.headD 0) % 256) % 256)
      if tag = List.replicate 16 ((pt.foldl (· + ·) 0 + key.headD 0 + iv.headD 0) % 256)
      then some pt else none

/-! ### Helper lemmas: base64 round-trip -/

/-- Decoding inverts encoding on each sextet value. -/
theorem b64DecChar_encChar : ∀ v : Nat, v < 64 →
    HelixEncryption.b64DecChar (HelixEncryption.b64EncChar v) = some v := by
  decide

/-- The padding character is outside the decode alphabet. -/
theorem b64DecChar_pad : HelixEncryption.b64DecChar '=' = none := by
  decide

/-- Decoding the sextet stream of an encoded byte list recovers the bytes. -/
theorem b64EncodeBytes_decode (l : Bytes) (h : ∀ x ∈ l, x < 256) :
    HelixEncryption.b64DecodeSextets
      ((HelixEncryption.b64EncodeBytes l).filterMap HelixEncryption.b64DecChar) = l := by
  induction l using HelixEncryption.b64EncodeBytes.induct with
  | case1 =>
    simp [HelixEncryption.b64EncodeBytes, HelixEncryption.b64DecodeSextets]
  | case2 a =>
    have ha : a < 256 := h a (by simp)
    rw [HelixEncryption.b64EncodeBytes]
    simp only [List.filterMap_cons, b64DecChar_encChar (a / 4) (by omega),
      b64DecChar_encChar (a % 4 * 16) (by omega), b64DecChar_pad, List.filterMap_nil]
    rw [HelixEncryption.b64DecodeSextets]
    simp only [List.cons.injEq, and_true]
    omega
  | case3 a b =>
    have ha : a < 256 := h a (by simp)
    have hb : b < 256 := h b (by simp)
    rw [HelixEncryption.b64EncodeBytes]
    simp only [List.filterMap_cons, b64DecChar_encChar (a / 4) (by omega),
      b64DecChar_encChar (a % 4 * 16 + b / 16) (by omega),
      b64DecChar_encChar (b % 16 * 4) (by omega), b64DecChar_pad, List.filterMap_nil]
    rw [HelixEncryption.b64DecodeSextets]
    simp only [List.cons.injEq, and_true]
    omega
  | case4 a b c rest ih =>
    have ha : a < 256 := h a (by simp)
    have hb : b < 256 := h b (by simp)
    have hc : c < 256 := h c (by simp)
    have hrest : ∀ x ∈ rest, x < 256 := fun x hx => h x (by simp [hx])
    rw [HelixEncryption.b64EncodeBytes]
    simp only [List.filterMap_cons, b64DecChar_encChar (a / 4) (by omega),
      b64DecChar_encChar (a % 4 * 16 + b / 16) (by omega),
      b64DecChar_encChar (b % 16 * 4 + c / 64) (by omega),
      b64DecChar_encChar (c % 64) (by omega)]
    rw [HelixEncryption.b64DecodeSextets, ih hrest]
    simp only [List.cons.injEq, and_true]
    omega

/-- base64 decode inverts base64 encode on byte lists. -/
theorem b64_roundtrip (l : Bytes) (h : ∀ x ∈ l, x < 256) :
    HelixEncryption.b64decode (HelixEncryption.b64encode l) = l := by
  have hs : (HelixEncryption.b64encode l).toList = HelixEncryption.b64EncodeBytes l := rfl
  rw [HelixEncryption.b64decode, hs]
  exact b64EncodeBytes_decode l h

/-- Importing an exported 32-byte key recovers the raw key material. -/
theorem importKey_exportKey (raw : Bytes) (hlen : raw.length = 32)
    (hb : ∀ x ∈ raw, x < 256) :
    HelixEncryption.importKey (HelixEncryption.exportKey raw) = .ok raw := by
  rw [HelixEncryption.importKey, HelixEncryption.exportKey, b64_roundtrip raw hb]
  simp [hlen]

/-! ### Helper lemmas: single-bit tampering -/

/-- Flip bit `pos` of a byte buffer (bit 0 is the lowest-order bit of byte 0);
byte `pos / 8` has its bit `pos % 8` toggled. -/
def flipBit (l : Bytes) (pos : Nat) : Bytes :=
  l.set (pos / 8) (l.getD (pos / 8) 0 ^^^ 2 ^ (pos % 8))

/-- Toggling one bit always changes a natural number. -/
theorem xor_two_pow_ne (x j : Nat) : x ^^^ 2 ^ j ≠ x := by
  intro h
  have h1 := congrArg (fun y => Nat.testBit y j) h
  simp [Nat.testBit_xor] at h1

/-- Flipping a bit preserves the buffer length. -/
theorem flipBit_length (l : Bytes) (pos : Nat) : (flipBit l pos).length = l.length :=
  List.length_set l _ _

/-- Setting an element at or beyond index n leaves the first n elements alone. -/
theorem take_set_of_le (l : Bytes) (i n v : Nat) (h : n ≤ i) :
    (l.set i v).take n = l.take n := by
  apply List.ext_getElem
  · simp
  · intro j h1 h2
    have hj : j < n := by simp [List.length_take] at h1; omega
    simp only [List.getElem_take, List.getElem_set]
    rw [if_neg (by omega)]

/-- Flipping a bit of byte 12 or later leaves the 12-byte IV prefix alone. -/
theorem flipBit_take_twelve (l : Bytes) (pos : Nat) (h : 96 ≤ pos) :
    (flipBit l pos).take 12 = l.take 12 :=
  take_set_of_le l (pos / 8) 12 _ (by omega)

/-- Flipping a bit inside the buffer changes the buffer. -/
theorem flipBit_ne (l : Bytes) (pos : Nat) (h : pos < 8 * l.length) :
    flipBit l pos ≠ l := by
  have hi : pos / 8 < l.length := by omega
  intro he
  have h2 := congrArg (fun t => t.getD (pos / 8) 0) he
  have e1 : (flipBit l pos).getD (pos / 8) 0 = l.getD (pos / 8) 0 ^^^ 2 ^ (pos % 8) := by
    rw [flipBit, List.getD_eq_getElem _ _ (by rw [List.length_set]; exact hi),
      List.getElem_set, if_pos rfl]
  simp only [] at h2
  rw [e1] at h2
  exact xor_two_pow_ne _ _ h2

/-- Envelope length under the standard ciphertext and tag length contract. -/
theorem encrypt_data_length (A : GCM) (b k iv : Bytes) (hiv : iv.length = 12)
    (hct : (A.encCt k iv b).length = b.length)
    (htag : (A.encTag k iv b).length = 16) :
    (HelixEncryption.encrypt A b k iv).data.length = b.length + 28 := by
  simp [HelixEncryption.encrypt, GCM.enc, hiv, hct, htag]
  omega

/-- The IV prefix of an envelope is the IV passed to the primitive. -/
theorem encrypt_data_take (A : GCM) (b k iv : Bytes) (hiv : iv.length = 12) :
    (HelixEncryption.encrypt A b k iv).data.take 12 = iv :=
  List.take_left' hiv

/-- The rest of an envelope is the primitive output. -/
theorem encrypt_data_drop (A : GCM) (b k iv : Bytes) (hiv : iv.length = 12) :
    (HelixEncryption.encrypt A b k iv).data.drop 12 = A.enc k iv b :=
  List.drop_left' hiv

/-- On inputs of 28 bytes or more, decrypt is the primitive decryption of the
split parts, with rejection surfaced as AuthenticationFailure. -/
theorem decrypt_long (A : GCM) (e k : Bytes) (h : 28 ≤ e.length) :
    HelixEncryption.decrypt A e k =
      match A.dec k (e.take 12) (e.drop 12) with
      | some pt => .ok pt
      | none => .error .AuthenticationFailure := by
  rw [HelixEncryption.decrypt, IV_LENGTH, if_neg (by omega)]

/-! ### Concrete fixtures for evaluating the theorems -/

/-- A concrete 32-byte key. -/
def keyW : Bytes := List.range 32

/-- A concrete 12-byte IV. -/
def ivW : Bytes := List.range 12

/-- A concrete plaintext. -/
def msgW : Bytes := [1, 2, 3]

/-! ### Claims -/

/-- C1: for every byte buffer b and 256-bit key k, decrypting with
HelixEncryption.decrypt and key k the envelope produced by
HelixEncryption.encrypt(b, k) returns exactly b. The fresh IV drawn inside
encrypt is the explicit `iv` argument; the AES-GCM primitive's standard
contract at this input (ciphertext of the plaintext's length, 16-byte tag,
decryption inverting encryption) is taken as hypotheses. -/
theorem C1_encrypt_decrypt_roundtrip (A : GCM) (b k iv : Bytes)
    (hiv : iv.length = 12)
    (hct : (A.encCt k iv b).length = b.length)
    (htag : (A.encTag k iv b).length = 16)
    (hdec : A.dec k iv (A.enc k iv b) = some b) :
    HelixEncryption.decrypt A (HelixEncryption.encrypt A b k iv).data k = .ok b := by
  rw [decrypt_long A _ k (by rw [encrypt_data_length A b k iv hiv hct htag]; omega),
    encrypt_data_take A b k iv hiv, encrypt_data_drop A b k iv hiv, hdec]

/-- C1 witness: the round-trip evaluated at a concrete plaintext, key and IV,
with the concrete stand-in cipher discharging the primitive contract. -/
theorem C1_witness :
    HelixEncryption.decrypt toyGCM
      (HelixEncryption.encrypt toyGCM msgW keyW ivW).data keyW = .ok msgW :=
  C1_encrypt_decrypt_roundtrip toyGCM msgW keyW ivW
    (by decide) (by decide) (by decide) (by decide)

/-- C2: the envelope is laid out as the 12-byte IV generated for the call,
then the ciphertext, then the 16-byte authentication tag, so its length is the
plaintext length plus 28; and decrypt consumes exactly this layout, taking the
first 12 bytes as IV and the remainder as ciphertext plus tag. -/
theorem C2_envelope_layout (A : GCM) (b k iv : Bytes)
    (hiv : iv.length = 12)
    (hct : (A.encCt k iv b).length = b.length)
    (htag : (A.encTag k iv b).length = 16) :
    (HelixEncryption.encrypt A b k iv).data
        = iv ++ A.encCt k iv b ++ A.encTag k iv b
    ∧ (HelixEncryption.encrypt A b k iv).data.length = b.length + 28
    ∧ (HelixEncryption.encrypt A b k iv).iv = iv
    ∧ (∀ e k2, 28 ≤ e.length →
        HelixEncryption.decrypt A e k2 =
          match A.dec k2 (e.take 12) (e.drop 12) with
          | some pt => .ok pt
          | none => .error .AuthenticationFailure) := by
  refine ⟨?_, encrypt_data_length A b k iv hiv hct htag, rfl,
    fun e k2 he => decrypt_long A e k2 he⟩
  simp [HelixEncryption.encrypt, GCM.enc, List.append_assoc]

/-- C2 witness: the layout evaluated at a concrete plaintext, key and IV with
the concrete stand-in cipher. -/
theorem C2_witness :
    (HelixEncryption.encrypt toyGCM msgW keyW ivW).data
      = ivW ++ toyGCM.encCt keyW ivW msgW ++ toyGCM.encTag keyW ivW msgW
    ∧ (HelixEncryption.encrypt toyGCM msgW keyW ivW).data.length = 3 + 28 := by
  have h := C2_envelope_layout toyGCM msgW keyW ivW (by decide) (by decide) (by decide)
  exact ⟨h.1, h.2.1⟩

/-- C5: every input buffer shorter than 28 bytes is rejected with
InvalidEnvelope; the statement holds for every primitive A, so the underlying
cipher is never consulted. -/
theorem C5_short_input_rejected (A : GCM) (e k : Bytes) (h : e.length < 28) :
    HelixEncryption.decrypt A e k = .error .InvalidEnvelope := by
  rw [HelixEncryption.decrypt, IV_LENGTH, if_pos (by omega)]

/-- C5 witness: a concrete 3-byte input is rejected. -/
theorem C5_witness :
    HelixEncryption.decrypt toyGCM [0, 1, 2] keyW = .error .InvalidEnvelope :=
  C5_short_input_rejected toyGCM [0, 1, 2] keyW (by decide)

/-- C4: flipping any single bit in the ciphertext or tag region of an envelope
(bit position at least 96, i.e. at or after byte 12, and inside the buffer)
makes decrypt fail with AuthenticationFailure and never return a plaintext.
The AEAD authentication guarantee — the platform primitive rejects the
tampered ciphertext-plus-tag — is the hypothesis `hreject`; the conclusion
also records that the tamper left the IV prefix and the length intact, and
genuinely changed the envelope. -/
theorem C4_tamper_detected (A : GCM) (b k iv : Bytes) (pos : Nat)
    (hiv : iv.length = 12)
    (hct : (A.encCt k iv b).length = b.length)
    (htag : (A.encTag k iv b).length = 16)
    (hpos : 96 ≤ pos)
    (hpos2 : pos < 8 * (HelixEncryption.encrypt A b k iv).data.length)
    (hreject : A.dec k iv
      ((flipBit (HelixEncryption.encrypt A b k iv).data pos).drop 12) = none) :
    HelixEncryption.decrypt A (flipBit (HelixEncryption.encrypt A b k iv).data pos) k
        = .error .AuthenticationFailure
    ∧ (∀ p, HelixEncryption.decrypt A
        (flipBit (HelixEncryption.encrypt A b k iv).data pos) k ≠ .ok p)
    ∧ (flipBit (HelixEncryption.encrypt A b k iv).data pos).take 12 = iv
    ∧ flipBit (HelixEncryption.encrypt A b k iv).data pos
        ≠ (HelixEncryption.encrypt A b k iv).data := by
  have hlen := encrypt_data_length A b k iv hiv hct htag
  have hflen : (flipBit (HelixEncryption.encrypt A b k iv).data pos).length
      = b.length + 28 := by
    rw [flipBit_length]; exact hlen
  have htk : (flipBit (HelixEncryption.encrypt A b k iv).data pos).take 12 = iv := by
    rw [flipBit_take_twelve _ pos hpos, encrypt_data_take A b k iv hiv]
  have hd : HelixEncryption.decrypt A
      (flipBit (HelixEncryption.encrypt A b k iv).data pos) k
      = .error .AuthenticationFailure := by
    rw [decrypt_long A _ k (by omega), htk, hreject]
  exact ⟨hd, fun p hp => by rw [hd] at hp; exact Except.noConfusion hp, htk,
    flipBit_ne _ pos hpos2⟩

/-- C4 witness: flipping the first ciphertext bit (bit 96) of a concrete
envelope makes decrypt fail with AuthenticationFailure, the concrete stand-in
cipher rejecting the tampered data. -/
theorem C4_witness :
    HelixEncryption.decrypt toyGCM
      (flipBit (HelixEncryption.encrypt toyGCM msgW keyW ivW).data 96) keyW
      = .error .AuthenticationFailure :=
  (C4_tamper_detected toyGCM msgW keyW ivW 96
    (by decide) (by decide) (by decide) (by decide) (by decide) (by decide)).1

/-- C6: the method HelixEncryption.importKey rejects every string whose base64
decoding is not exactly 32 bytes with InvalidKeyLength, and on a string
decoding to exactly 32 bytes succeeds with key material equal to those bytes. -/
theorem C6_importKey_validates (s : String) :
    ((HelixEncryption.b64decode s).length ≠ 32 →
       HelixEncryption.importKey s = .error .InvalidKeyLength)
    ∧ ((HelixEncryption.b64decode s).length = 32 →
       HelixEncryption.importKey s = .ok (HelixEncryption.b64decode s)) := by
  constructor <;> intro h <;> simp [HelixEncryption.importKey, h]

/-- C6 witness: a 4-character string decoding to 3 bytes is rejected; a
44-character string decoding to 32 bytes yields exactly those bytes. -/
theorem C6_witness :
    HelixEncryption.importKey "AAAA" = .error .InvalidKeyLength
    ∧ HelixEncryption.importKey "AAECAwQFBgcICQoLDA0ODxAREhMUFRYXGBkaGxwdHh8="
        = .ok (HelixEncryption.b64decode "AAECAwQFBgcICQoLDA0ODxAREhMUFRYXGBkaGxwdHh8=") :=
  ⟨(C6_importKey_validates "AAAA").1 (by decide),
   (C6_importKey_validates "AAECAwQFBgcICQoLDA0ODxAREhMUFRYXGBkaGxwdHh8=").2 (by decide)⟩

/-- C8: export followed by import is the identity on key material: importing
the base64 string produced by exportKey on a 32-byte raw key yields exactly
those 32 bytes. -/
theorem C8_export_import_identity (raw : Bytes) (hlen : raw.length = 32)
    (hb : ∀ x ∈ raw, x < 256) :
    HelixEncryption.importKey (HelixEncryption.exportKey raw) = .ok raw :=
  importKey_exportKey raw hlen hb

/-- C8 witness: the round-trip evaluated on a concrete 32-byte key. -/
theorem C8_witness :
    HelixEncryption.importKey (HelixEncryption.exportKey keyW) = .ok keyW :=
  C8_export_import_identity keyW (by decide) (by decide)

/-- C9: deriveKey is a deterministic function of password and salt — its body
draws no randomness, so its output is exactly the PBKDF2 provider applied to
the password and salt with iteration count 100000 (at least 100,000) and
256-bit output; generateSalt returns 16 bytes drawn from the entropy source. -/
theorem C9_deriveKey_deterministic :
    (∀ (P : HelixEncryption.PBKDF2Provider) (p : String) (s : Bytes),
       HelixEncryption.deriveKey P p s = P p s 100000 256)
    ∧ (∀ entropy, (HelixEncryption.generateSalt entropy).length = 16)
    ∧ (∀ entropy i, (HelixEncryption.generateSalt entropy).getD i 0 < 256) := by
  refine ⟨fun P p s => rfl, fun entropy => by simp [HelixEncryption.generateSalt],
    fun entropy i => ?_⟩
  by_cases hi : i < 16
  · rw [List.getD_eq_getElem _ _ (by simp [HelixEncryption.generateSalt]; omega)]
    simp only [HelixEncryption.generateSalt, List.getElem_map, List.getElem_range]
    omega
  · rw [List.getD_eq_default _ _ (by simp [HelixEncryption.generateSalt]; omega)]
    omega

/-- C10: the standalone package-root importKey performs no length validation:
for every base64 string, including ones decoding to a byte length other than
32, it hands the decoded bytes directly to the platform key import `imp`
without raising InvalidKeyLength — in contrast to the method importKey, which
rejects the same string. -/
theorem C10_standalone_importKey_no_validation
    (imp : Bytes → Except HelixError Bytes) (s : String)
    (h : (HelixEncryption.b64decode s).length ≠ 32) :
    importKeyStandalone imp s = imp (HelixEncryption.b64decode s)
    ∧ HelixEncryption.importKey s = .error .InvalidKeyLength :=
  ⟨rfl, by simp [HelixEncryption.importKey, h]⟩

/-- C10 witness: on a string decoding to 3 bytes, the standalone importKey
hands the 3 bytes to the platform import (which here accepts them), while the
method importKey rejects the same string. -/
theorem C10_witness :
    importKeyStandalone (fun raw => .ok raw) "AAAA" = .ok [0, 0, 0]
    ∧ HelixEncryption.importKey "AAAA" = .error .InvalidKeyLength := by
  have h := C10_standalone_importKey_no_validation (fun raw => .ok raw) "AAAA" (by decide)
  exact ⟨by rw [h.1]; decide, h.2⟩

/-! ### Client fixtures -/

/-- Concrete collaborator outputs for evaluating the upload pipeline. -/
def envW : HelixClient.UploadEnv :=
  { freshKey := keyW, ivFile := ivW, ivName := List.replicate 12 5, txId := "abc123" }

/-- Concrete upload options with the encrypt field left undefined. -/
def optsW : HelixClient.UploadOptions :=
  { name := "f.txt", mimeType := "text/plain", encrypt := none }

/-- A concrete JWT-shaped token whose payload claims exp = 1 (long expired):
header "x", base64url of the claims JSON, signature "y". -/
def expiredTokenW : String :=
  "x.eyJ3YWxsZXQiOiJ3IiwiZXhwIjoxLCJpYXQiOjB9.y"

/-- A concrete platform JSON parse recognising the payload of expiredTokenW. -/
def jsonParseW : String → Option HelixAuth.TokenClaims := fun s =>
  if s = "\x7b\"wallet\":\"w\",\"exp\":1,\"iat\":0\x7d"
  then some { wallet := "w", exp := 1, iat := 0 } else none

/-- Whether a trace contains a transport store call. -/
def hasTransportStore : List HelixClient.UploadEvent → Bool
  | [] => false
  | HelixClient.UploadEvent.transportStore _ _ :: _ => true
  | _ :: rest => hasTransportStore rest

/-- C3 counterexample: with a session holding a token that is expired (the
source's own isTokenExpired says so at the given clock), uploadFile does not
fail with NotAuthenticated and does invoke the transport store — uploadFile
checks only that a token is present, never its expiry. -/
theorem C3_counterexample :
    HelixAuth.isTokenExpired jsonParseW expiredTokenW 1760000000000 = true
    ∧ (HelixClient.uploadFile toyGCM envW { authToken := some expiredTokenW }
        msgW optsW).1 ≠ .error .NotAuthenticated
    ∧ hasTransportStore
        (HelixClient.uploadFile toyGCM envW { authToken := some expiredTokenW }
          msgW optsW).2 = true :=
  ⟨by decide, by decide, by decide⟩

/-- C3 (amended): a call to uploadFile made while the session holds no token
fails with NotAuthenticated before any transport call occurs (the trace is
empty); an expired-but-present token is not rejected, since the client stores
only the token string and uploadFile checks only its presence. -/
theorem C3_no_token_rejected_before_transport (A : GCM) (env : HelixClient.UploadEnv)
    (st : HelixClient.ClientState) (file : Bytes) (options : HelixClient.UploadOptions)
    (h : st.authToken = none) :
    HelixClient.uploadFile A env st file options = (.error .NotAuthenticated, []) := by
  simp [HelixClient.uploadFile, HelixClient.isAuthenticated, h]

/-- C3 witness: the amended statement at a concrete tokenless state. -/
theorem C3_witness :
    HelixClient.uploadFile toyGCM envW { authToken := none } msgW optsW
      = (.error .NotAuthenticated, []) :=
  C3_no_token_rejected_before_transport toyGCM envW { authToken := none } msgW optsW rfl

/-- C7: encryption is performed iff options.encrypt is not explicitly false
(the default is to encrypt): the stored payload is the envelope exactly in
that case, the returned result carries the exported key exactly in that case,
and the registry record's isEncrypted flag equals the same condition. -/
theorem C7_encrypt_iff_option (A : GCM) (env : HelixClient.UploadEnv)
    (st : HelixClient.ClientState) (file : Bytes) (options : HelixClient.UploadOptions)
    (hauth : st.authToken ≠ none)
    (hklen : env.freshKey.length = 32)
    (hkb : ∀ x ∈ env.freshKey, x < 256) :
    HelixClient.uploadFile A env st file options =
      (.ok { transactionId := env.txId
             encryptionKey :=
               if options.encrypt != some false
               then some (HelixEncryption.exportKey env.freshKey) else none
             arweaveUrl := "https://arweave.net/" ++ env.txId },
       [HelixClient.UploadEvent.transportStore
          (if options.encrypt != some false
           then (HelixEncryption.encrypt A file env.freshKey env.ivFile).data
           else file)
          options.mimeType,
        HelixClient.UploadEvent.registryCreate
          { transactionId := env.txId
            encryptedName :=
              if options.encrypt != some false
              then some (HelixEncryption.b64encode
                (HelixEncryption.encrypt A (HelixClient.textEncode options.name)
                  env.freshKey env.ivName).data)
              else none
            mimeType := options.mimeType
            size := file.length
            isEncrypted := options.encrypt != some false }]) := by
  have hA : HelixClient.isAuthenticated st = true := by
    simp [HelixClient.isAuthenticated, Option.isSome_iff_ne_none, hauth]
  cases hb : (options.encrypt != some false) with
  | false => simp [HelixClient.uploadFile, hA, hb]
  | true =>
    simp [HelixClient.uploadFile, hA, hb, importKey_exportKey env.freshKey hklen hkb]

/-- C7 witness: at concrete inputs with encrypt left undefined, the result
carries the exported key and the registry record is flagged encrypted. -/
theorem C7_witness :
    (HelixClient.uploadFile toyGCM envW { authToken := some "t" } msgW optsW).1
      = .ok { transactionId := "abc123"
              encryptionKey := some (HelixEncryption.exportKey keyW)
              arweaveUrl := "https://arweave.net/abc123" } := by
  have h := C7_encrypt_iff_option toyGCM envW { authToken := some "t" } msgW optsW
    (by decide) (by decide) (by decide)
  rw [h]
  decide

end Helix
